import Mathlib

/-!
Verification of the PDF acquisition-and-extraction pipeline of the
academic-mcp server (src/index.ts, src/pdf-utils.ts).

TypeScript functions are shallowly embedded as Lean functions: byte buffers
become lists of naturals (one entry per byte), the downloads directory
becomes an association list from file names to byte contents, and the
outside world (HTTP via axios, the pdfjs parser, the WHATWG URL parser)
is passed in as explicit oracle parameters.  JavaScript string primitives
used by the source (includes, endsWith, split, replace) are modelled by
structurally recursive functions on character lists so that every
definition evaluates inside the kernel.
-/

/-- Model of the JS String.prototype.includes test on character lists:
true when sub occurs contiguously inside the second list. -/
def containsSubList (sub : List Char) : List Char → Bool
  | [] => sub.isEmpty
  | c :: rest => sub.isPrefixOf (c :: rest) || containsSubList sub rest

/-- The last element of url.split with the slash separator: the characters
after the last slash, or the whole string when there is no slash.  The
accumulator holds the current segment. -/
def lastSegment (acc : List Char) : List Char → List Char
  | [] => acc
  | c :: rest => if c = '/' then lastSegment [] rest else lastSegment (acc ++ [c]) rest

/-- JS String.prototype.replace with a plain-string pattern replaces only the
first occurrence; the source always replaces with the empty string, so this
removes the first occurrence of pat. -/
def removeFirstOccur (pat : List Char) : List Char → List Char
  | [] => []
  | c :: rest =>
    if pat.isPrefixOf (c :: rest) then (c :: rest).drop pat.length
    else c :: removeFirstOccur pat rest

/-- JS String.prototype.endsWith. -/
def jsEndsWith (s suf : String) : Bool := List.isSuffixOf suf.data s.data

/-- First match of the source regex that captures the arXiv id: scanning the
url left to right, the first position where the literal text arxiv.org/pdf/
occurs followed by at least one character other than a slash; the capture is
the maximal run of non-slash characters after that occurrence. -/
def arxivIdScan : List Char → Option (List Char)
  | [] => none
  | c :: rest =>
    let pat := "arxiv.org/pdf/".data
    let tl := (c :: rest).drop pat.length
    if pat.isPrefixOf (c :: rest) && tl.headD '/' != '/' then
      some (tl.takeWhile (fun d => d != '/'))
    else arxivIdScan rest

/-- The character class of the sanitising regex in downloadPDF: ASCII
letters, digits, dot, underscore and hyphen survive; every other character
is replaced by an underscore. -/
def isFilenameSafeChar (c : Char) : Bool :=
  c.isAlpha || c.isDigit || c == '.' || c == '_' || c == '-'

/-- Byte codes of the ASCII signature of a PDF file. -/
def pdfSignature : List Nat := [37, 80, 68, 70]

/-- PDFUtils.isValidPDF applied to the byte contents of the file: at least
four bytes, and buffer.toString with the ascii encoding over bytes 0 to 4
equal to the signature.  The Node ascii decoder unsets the highest bit of
every byte before decoding, so the comparison sees each of the first four
bytes reduced modulo 128. -/
def isValidPDF (b : List Nat) : Bool :=
  decide (4 ≤ b.length) && ((b.take 4).map (fun x => x % 128) == pdfSignature)

/-- Follows the words of the specification, for comparison with isValidPDF:
true iff the byte length is at least 4 and the first four bytes are exactly
the signature bytes. -/
def isValidPDFSpec (b : List Nat) : Bool :=
  decide (4 ≤ b.length) && (b.take 4 == pdfSignature)

/-- The downloads directory contents: file name paired with byte contents. -/
abbrev FS := List (String × List Nat)

/-- Reading a file by name. -/
def fsLookup (k : String) : FS → Option (List Nat)
  | [] => none
  | p :: rest => if p.1 == k then some p.2 else fsLookup k rest

/-- fs.unlinkSync: removal of one name. -/
def fsErase (k : String) (l : FS) : FS := l.filter (fun p => p.1 != k)

/-- fs.writeFileSync: create or overwrite one name. -/
def fsInsert (k : String) (v : List Nat) (l : FS) : FS := (k, v) :: fsErase k l

/-- The filename derivation block of PDFUtils.downloadPDF when no filename
was supplied: take the last path segment of the url; when that segment
contains arxiv.org, use the id captured from the url (or unknown); when it
contains scholar.google, use a timestamp name; otherwise drop the first
occurrence of .pdf and fall back to a timestamp name when nothing remains.
The parameter now stands for Date.now(). -/
def deriveFilename (pdfUrl : String) (now : Nat) : String :=
  let base := lastSegment [] pdfUrl.data
  let base2 :=
    if containsSubList "arxiv.org".data base then
      "arxiv_".data ++ ((arxivIdScan pdfUrl.data).getD "unknown".data)
    else if containsSubList "scholar.google".data base then
      "scholar_".data ++ (toString now).data
    else
      let r := removeFirstOccur ".pdf".data base
      if r.isEmpty then "paper_".data ++ (toString now).data else r
  String.mk base2 ++ ".pdf"

/-- Filename resolution of PDFUtils.downloadPDF: derive a name when the
argument is absent or empty (JS falsiness), then append .pdf when the name
does not already end with it, then sanitise every character outside the
safe class to an underscore. -/
def resolveFilename (pdfUrl : String) (filename : Option String) (now : Nat) : String :=
  let fname :=
    match filename with
    | some f => if f == "" then deriveFilename pdfUrl now else f
    | none => deriveFilename pdfUrl now
  let fname2 := if jsEndsWith fname ".pdf" then fname else fname ++ ".pdf"
  String.mk (fname2.data.map (fun c => if isFilenameSafeChar c then c else '_'))

/-- Claim C5 counterexample: a byte sequence whose first byte is 165 (the
signature byte 37 with the high bit set) is accepted by the validator even
though its first four bytes are not the ASCII signature, because the Node
ascii decoding unsets the high bit; so the claimed equivalence between
isValidPDF and the exact first-four-bytes comparison fails at this input. -/
theorem isValidPDF_accepts_masked_bytes :
    isValidPDF [165, 80, 68, 70] = true ∧ isValidPDFSpec [165, 80, 68, 70] = false := by
  decide

/-- Claim C5 (amended): the validator returns true iff the length is at
least 4 and the first four bytes, each reduced modulo 128 (the Node ascii
decoding of a byte), equal the signature; in particular every byte sequence
accepted by the exact comparison of the specification is also accepted by
the validator. -/
theorem isValidPDF_masked_characterization :
    ∀ b : List Nat,
      (isValidPDFSpec b = true → isValidPDF b = true) ∧
      (isValidPDF b = true ↔
        4 ≤ b.length ∧ (b.take 4).map (fun x => x % 128) = pdfSignature) := by
  intro b
  constructor
  · intro h
    simp only [isValidPDFSpec, Bool.and_eq_true, decide_eq_true_eq, beq_iff_eq] at h
    simp only [isValidPDF, Bool.and_eq_true, decide_eq_true_eq, beq_iff_eq]
    refine ⟨h.1, ?_⟩
    rw [h.2]
    decide
  · simp [isValidPDF]

/-- Claim C5 witness: the amended characterisation evaluated at a concrete
five-byte valid file. -/
theorem isValidPDF_masked_characterization_witness :
    (isValidPDFSpec [37, 80, 68, 70, 9] = true → isValidPDF [37, 80, 68, 70, 9] = true) ∧
    (isValidPDF [37, 80, 68, 70, 9] = true ↔
      4 ≤ ([37, 80, 68, 70, 9] : List Nat).length ∧
        (([37, 80, 68, 70, 9] : List Nat).take 4).map (fun x => x % 128) = pdfSignature) :=
  isValidPDF_masked_characterization [37, 80, 68, 70, 9]

/-- Claim C2: for the url of the scenario the filename derivation does not
produce the name the specification states.  The arXiv branch of the source
tests the last path segment of the url (here 2301.00001) for the substring
arxiv.org, while the regex inside that branch matches against the full url;
the branch is therefore skipped and the generic branch yields
2301.00001.pdf instead of arxiv_2301.00001.pdf, for every timestamp. -/
theorem arxiv_filename_resolution_misses :
    ∀ now : Nat,
      resolveFilename "https://arxiv.org/pdf/2301.00001" none now = "2301.00001.pdf" ∧
      resolveFilename "https://arxiv.org/pdf/2301.00001" none now ≠ "arxiv_2301.00001.pdf" := by
  intro now
  have h1 : resolveFilename "https://arxiv.org/pdf/2301.00001" none now = "2301.00001.pdf" := rfl
  refine ⟨h1, ?_⟩
  rw [h1]
  decide

/-- The fixed list of paywalled publisher domains of
PDFUtils.isPaywalledSource. -/
def paywalledDomains : List String :=
  ["scholar.google.com", "sciencedirect.com", "ieee.org", "acm.org", "springer.com",
   "wiley.com", "tandfonline.com", "sagepub.com", "taylorfrancis.com", "emerald.com",
   "jstor.org"]

/-- PDFUtils.isPaywalledSource: the url contains some domain of the list. -/
def isPaywalledSource (url : String) : Bool :=
  paywalledDomains.any (fun d => containsSubList d.data url.data)

/-- filename.replace of the anchored .pdf pattern: strip one trailing .pdf. -/
def stripPdfEnding (f : String) : String :=
  if jsEndsWith f ".pdf" then String.mk (f.data.take (f.data.length - 4)) else f

/-- replace of every underscore or hyphen by a space. -/
def dashesToSpaces (s : String) : String :=
  String.mk (s.data.map (fun c => if c == '_' || c == '-' then ' ' else c))

/-- Oracles for the outside world seen by PDFUtils.downloadPDF.  fetch models
axios.get (ok carries the response bytes, error the thrown message);
arxivLookup models findPaperOnArxiv, which swallows its own failures and
returns null instead of throwing; urlTitleParam models the try block of
extractTitleFromUrl that builds a URL object and reads a decoded title, q or
query search parameter (none when parsing fails or no such parameter); now
models Date.now(); tmpdir models os.tmpdir(). -/
structure NetEnv where
  fetch : String → Except String (List Nat)
  arxivLookup : String → Option String
  urlTitleParam : String → Option String
  now : Nat
  tmpdir : String

/-- path.join of os.tmpdir() and the fixed directory name. -/
def downloadsDirectory (env : NetEnv) : String := env.tmpdir ++ "/science_mcp_downloads"

/-- PDFUtils.extractTitleFromUrl: prefer a cleaned filename longer than 10
characters, then a title-like query parameter of the url, then a last path
segment longer than 10 characters containing no dot. -/
def extractTitleFromUrl (env : NetEnv) (url : String) (filename : Option String) :
    Option String :=
  let fromFilename : Option String :=
    match filename with
    | some f =>
      if f == "" then none
      else
        let clean := dashesToSpaces (stripPdfEnding f)
        if 10 < clean.length then some clean else none
    | none => none
  match fromFilename with
  | some t => some t
  | none =>
    match env.urlTitleParam url with
    | some t => some t
    | none =>
      let lastPart := String.mk (lastSegment [] url.data)
      if lastPart != "" && decide (10 < lastPart.length) &&
          !(containsSubList ".".data lastPart.data) then
        some (dashesToSpaces lastPart)
      else none

/-- Outcome of the try block of downloadPDF: a successful write returning the
stored path, or the caught error message together with the value the mutable
filename variable holds when control reaches the catch block. -/
inductive TryOutcome where
  | okPath (path : String)
  | failed (msg : String) (filenameNow : Option String)
deriving DecidableEq

/-- The try block of PDFUtils.downloadPDF: fetch the url, resolve a file
name, write the bytes under that name, validate the file just written, and
delete it again before failing when it is not a valid PDF. -/
def downloadTry (env : NetEnv) (fs : FS) (pdfUrl : String) (filename : Option String) :
    FS × TryOutcome :=
  match env.fetch pdfUrl with
  | Except.error msg => (fs, TryOutcome.failed msg filename)
  | Except.ok data =>
    let fname := resolveFilename pdfUrl filename env.now
    let fs1 := fsInsert fname data fs
    if (match fsLookup fname fs1 with
        | some b => isValidPDF b
        | none => false) then
      (fs1, TryOutcome.okPath (downloadsDirectory env ++ "/" ++ fname))
    else
      (fsErase fname fs1, TryOutcome.failed "Downloaded file is not a valid PDF" (some fname))

deriving instance DecidableEq for Except

/-- Result of one downloadPDF call: the final directory state, the returned
path or the thrown message, and the number of downloadPDF invocations
performed in the call tree (instrumentation for the recursion bound). -/
structure DLResult where
  fs : FS
  result : Except String String
  calls : Nat
deriving DecidableEq

/-- PDFUtils.downloadPDF.  On a caught failure, when the call is not already
a retry and the url matches the paywall heuristic, the source derives a
title, asks the arXiv lookup for an open-access url and recursively invokes
itself on that url with isRetry set; a failure of the recursive call is
swallowed and the original message is rethrown with the standard wrapper. -/
def downloadPDF (env : NetEnv) (isRetry : Bool) (fs : FS) (pdfUrl : String)
    (filename : Option String) : DLResult :=
  match downloadTry env fs pdfUrl filename with
  | (fs1, TryOutcome.okPath p) => ⟨fs1, Except.ok p, 1⟩
  | (fs1, TryOutcome.failed msg fnNow) =>
    if hpw : (!isRetry && isPaywalledSource pdfUrl) = true then
      match extractTitleFromUrl env pdfUrl fnNow with
      | some title =>
        match env.arxivLookup title with
        | some arxivUrl =>
          let r := downloadPDF env true fs1 arxivUrl fnNow
          match r.result with
          | Except.ok p => ⟨r.fs, Except.ok p, r.calls + 1⟩
          | Except.error _ => ⟨r.fs, Except.error ("Failed to download PDF: " ++ msg), r.calls + 1⟩
        | none => ⟨fs1, Except.error ("Failed to download PDF: " ++ msg), 1⟩
      | none => ⟨fs1, Except.error ("Failed to download PDF: " ++ msg), 1⟩
    else ⟨fs1, Except.error ("Failed to download PDF: " ++ msg), 1⟩
termination_by if isRetry then 0 else 1
decreasing_by
  simp only [Bool.and_eq_true, Bool.not_eq_true'] at hpw
  simp [hpw.1]

theorem downloadPDF_retry_calls (env : NetEnv) (fs : FS) (url : String) (fn : Option String) :
    (downloadPDF env true fs url fn).calls = 1 := by
  unfold downloadPDF
  rcases h : downloadTry env fs url fn with ⟨fs1, out⟩
  cases out <;> simp


theorem downloadPDF_ok_eq (env : NetEnv) (b : Bool) (fs fs1 : FS) (url : String)
    (fn : Option String) (p : String)
    (ht : downloadTry env fs url fn = (fs1, TryOutcome.okPath p)) :
    downloadPDF env b fs url fn = ⟨fs1, Except.ok p, 1⟩ := by
  conv_lhs => rw [downloadPDF.eq_def]
  rw [ht]

theorem downloadPDF_failed_eq (env : NetEnv) (b : Bool) (fs fs1 : FS) (url : String)
    (fn fn2 : Option String) (msg : String)
    (ht : downloadTry env fs url fn = (fs1, TryOutcome.failed msg fn2)) :
    downloadPDF env b fs url fn =
      if (!b && isPaywalledSource url) = true then
        match extractTitleFromUrl env url fn2 with
        | some title =>
          match env.arxivLookup title with
          | some arxivUrl =>
            let r := downloadPDF env true fs1 arxivUrl fn2
            match r.result with
            | Except.ok p => ⟨r.fs, Except.ok p, r.calls + 1⟩
            | Except.error _ =>
              ⟨r.fs, Except.error ("Failed to download PDF: " ++ msg), r.calls + 1⟩
          | none => ⟨fs1, Except.error ("Failed to download PDF: " ++ msg), 1⟩
        | none => ⟨fs1, Except.error ("Failed to download PDF: " ++ msg), 1⟩
      else ⟨fs1, Except.error ("Failed to download PDF: " ++ msg), 1⟩ := by
  conv_lhs => rw [downloadPDF.eq_def]
  rw [ht]
  dsimp only
  rw [dite_eq_ite]


theorem downloadPDF_calls_le (env : NetEnv) (b : Bool) (fs : FS) (url : String)
    (fn : Option String) : (downloadPDF env b fs url fn).calls ≤ 2 := by
  rcases ht : downloadTry env fs url fn with ⟨fs1, out⟩
  cases out with
  | okPath p => rw [downloadPDF_ok_eq env b fs fs1 url fn p ht]; dsimp only; omega
  | failed msg fn2 =>
    rw [downloadPDF_failed_eq env b fs fs1 url fn fn2 msg ht]
    by_cases hpw : (!b && isPaywalledSource url) = true
    · rw [if_pos hpw]
      cases hti : extractTitleFromUrl env url fn2 with
      | none => dsimp only; omega
      | some title =>
        dsimp only
        cases ha : env.arxivLookup title with
        | none => dsimp only; omega
        | some u2 =>
          dsimp only
          cases hr : (downloadPDF env true fs1 u2 fn2).result with
          | ok p => dsimp only; rw [downloadPDF_retry_calls]
          | error e => dsimp only; rw [downloadPDF_retry_calls]
    · rw [if_neg hpw]; dsimp only; omega

theorem fsErase_mem {k : String} {l : FS} {p : String × List Nat}
    (h : p ∈ fsErase k l) : p ∈ l := (List.mem_filter.mp h).1

theorem fsLookup_fsInsert (k : String) (v : List Nat) (l : FS) :
    fsLookup k (fsInsert k v l) = some v := by
  simp [fsInsert, fsLookup]

theorem fsInsert_mem {k : String} {v : List Nat} {l : FS} {p : String × List Nat}
    (h : p ∈ fsInsert k v l) : p = (k, v) ∨ p ∈ l := by
  rcases List.mem_cons.mp h with h1 | h1
  · exact Or.inl h1
  · exact Or.inr (fsErase_mem h1)

theorem fsErase_fsInsert_mem {k : String} {v : List Nat} {l : FS} {p : String × List Nat}
    (h : p ∈ fsErase k (fsInsert k v l)) : p ∈ l := by
  have h1 := List.mem_filter.mp h
  rcases fsInsert_mem h1.1 with h2 | h2
  · exfalso
    have h3 := h1.2
    rw [h2] at h3
    simp at h3
  · exact h2

theorem downloadTry_inv (env : NetEnv) (fs : FS) (url : String) (fn : Option String)
    (h : ∀ p ∈ fs, isValidPDF p.2 = true) :
    (∀ p ∈ (downloadTry env fs url fn).1, isValidPDF p.2 = true) ∧
    (∀ msg fn2, (downloadTry env fs url fn).2 = TryOutcome.failed msg fn2 →
      ∀ p ∈ (downloadTry env fs url fn).1, p ∈ fs) := by
  unfold downloadTry
  cases hf : env.fetch url with
  | error msg => exact ⟨h, fun _ _ _ p hp => hp⟩
  | ok data =>
    simp only [fsLookup_fsInsert]
    by_cases hv : isValidPDF data = true
    · rw [if_pos hv]
      constructor
      · intro p hp
        rcases fsInsert_mem hp with h2 | h2
        · rw [h2]; exact hv
        · exact h p h2
      · intro msg fn2 hcontra
        exact absurd hcontra (by simp)
    · rw [if_neg hv]
      exact ⟨fun p hp => h p (fsErase_fsInsert_mem hp),
        fun _ _ _ p hp => fsErase_fsInsert_mem hp⟩

theorem downloadPDF_retry_inv (env : NetEnv) (fs : FS) (url : String) (fn : Option String)
    (h : ∀ p ∈ fs, isValidPDF p.2 = true) :
    (∀ p ∈ (downloadPDF env true fs url fn).fs, isValidPDF p.2 = true) ∧
    (∀ e, (downloadPDF env true fs url fn).result = Except.error e →
      ∀ p ∈ (downloadPDF env true fs url fn).fs, p ∈ fs) := by
  have hinv := downloadTry_inv env fs url fn h
  rcases ht : downloadTry env fs url fn with ⟨fs1, out⟩
  rw [ht] at hinv
  dsimp only at hinv
  cases out with
  | okPath p =>
    rw [downloadPDF_ok_eq env true fs fs1 url fn p ht]
    exact ⟨hinv.1, fun e he => by simp at he⟩
  | failed msg fn2 =>
    rw [downloadPDF_failed_eq env true fs fs1 url fn fn2 msg ht]
    rw [if_neg (by simp : ¬(!true && isPaywalledSource url) = true)]
    exact ⟨hinv.1, fun e _ p hp => hinv.2 msg fn2 rfl p hp⟩

theorem downloadPDF_inv (env : NetEnv) (b : Bool) (fs : FS) (url : String)
    (fn : Option String) (h : ∀ p ∈ fs, isValidPDF p.2 = true) :
    (∀ p ∈ (downloadPDF env b fs url fn).fs, isValidPDF p.2 = true) ∧
    (∀ e, (downloadPDF env b fs url fn).result = Except.error e →
      ∀ p ∈ (downloadPDF env b fs url fn).fs, p ∈ fs) := by
  cases b with
  | true => exact downloadPDF_retry_inv env fs url fn h
  | false =>
    have hinv := downloadTry_inv env fs url fn h
    rcases ht : downloadTry env fs url fn with ⟨fs1, out⟩
    rw [ht] at hinv
    dsimp only at hinv
    cases out with
    | okPath p =>
      rw [downloadPDF_ok_eq env false fs fs1 url fn p ht]
      exact ⟨hinv.1, fun e he => by simp at he⟩
    | failed msg fn2 =>
      rw [downloadPDF_failed_eq env false fs fs1 url fn fn2 msg ht]
      by_cases hpw : (!false && isPaywalledSource url) = true
      · rw [if_pos hpw]
        cases hti : extractTitleFromUrl env url fn2 with
        | none => exact ⟨hinv.1, fun e _ p hp => hinv.2 msg fn2 rfl p hp⟩
        | some title =>
          dsimp only
          cases ha : env.arxivLookup title with
          | none => exact ⟨hinv.1, fun e _ p hp => hinv.2 msg fn2 rfl p hp⟩
          | some u2 =>
            have hr := downloadPDF_retry_inv env fs1 u2 fn2 hinv.1
            dsimp only
            cases hres : (downloadPDF env true fs1 u2 fn2).result with
            | ok p =>
              dsimp only
              exact ⟨hr.1, fun e he => by simp at he⟩
            | error e2 =>
              dsimp only
              refine ⟨hr.1, fun e _ p hp => ?_⟩
              exact hinv.2 msg fn2 rfl p (hr.2 e2 hres p hp)
      · rw [if_neg hpw]
        exact ⟨hinv.1, fun e _ p hp => hinv.2 msg fn2 rfl p hp⟩

/-- Claim C3: the recursive retry of downloadPDF is always invoked with the
isRetry flag set, a call with the flag set never attempts another fallback,
and hence every downloadPDF call tree contains at most two invocations (the
model is a total function, so termination holds whenever each single fetch
terminates). -/
theorem download_fallback_depth_bounded :
    ∀ (env : NetEnv) (fs : FS) (url : String) (fn : Option String) (b : Bool),
      (downloadPDF env true fs url fn).calls = 1 ∧
      (downloadPDF env b fs url fn).calls ≤ 2 :=
  fun env fs url fn b =>
    ⟨downloadPDF_retry_calls env fs url fn, downloadPDF_calls_le env b fs url fn⟩

/-- A concrete oracle environment for evaluating the download model on closed
inputs: every fetch delivers the four bytes 165, 80, 68, 70, whose low seven
bits spell the PDF signature even though the first byte is not the literal
signature byte. -/
def envMasked : NetEnv :=
  { fetch := fun _ => Except.ok [165, 80, 68, 70], arxivLookup := fun _ => none,
    urlTitleParam := fun _ => none, now := 0, tmpdir := "/tmp" }

/-- Claim C4 counterexample: a download whose response bytes have the high
bit of the first byte set passes validation (Node ascii decoding masks the
bit), succeeds, and leaves a file in the storage directory whose first four
bytes are not the ASCII signature; so the claimed invariant that every
remaining file begins with the literal signature fails at this input. -/
theorem download_leaves_masked_signature_file :
    (downloadPDF envMasked false [] "http://example.com/a.pdf" none).fs =
      [("a.pdf", [165, 80, 68, 70])] ∧
    (downloadPDF envMasked false [] "http://example.com/a.pdf" none).result =
      Except.ok "/tmp/science_mcp_downloads/a.pdf" ∧
    isValidPDFSpec [165, 80, 68, 70] = false := by
  refine ⟨?_, ?_, by decide⟩ <;> (unfold downloadPDF; decide)

/-- Claim C4 (amended): downloadPDF preserves the invariant that every file
in the storage directory passes the validator (its first four bytes spell
the signature after the Node ascii masking), because an invalid download is
deleted before the error is raised; and a call that ends in an error adds no
file: every entry of the final directory already was an entry of the initial
one. -/
theorem download_storage_invariant_masked :
    ∀ (env : NetEnv) (b : Bool) (fs : FS) (url : String) (fn : Option String),
      (∀ p ∈ fs, isValidPDF p.2 = true) →
      (∀ p ∈ (downloadPDF env b fs url fn).fs, isValidPDF p.2 = true) ∧
      (∀ e, (downloadPDF env b fs url fn).result = Except.error e →
        ∀ p ∈ (downloadPDF env b fs url fn).fs, p ∈ fs) :=
  fun env b fs url fn h => downloadPDF_inv env b fs url fn h

/-- Claim C4 witness: the amended invariant applied to a concrete download
starting from the empty storage directory. -/
theorem download_storage_invariant_masked_witness :
    (∀ p ∈ ([] : FS), isValidPDF p.2 = true) ∧
    ((∀ p ∈ (downloadPDF envMasked false [] "http://example.com/a.pdf" none).fs,
        isValidPDF p.2 = true) ∧
      (∀ e, (downloadPDF envMasked false [] "http://example.com/a.pdf" none).result =
          Except.error e →
        ∀ p ∈ (downloadPDF envMasked false [] "http://example.com/a.pdf" none).fs,
          p ∈ ([] : FS))) :=
  ⟨fun p hp => absurd hp (List.not_mem_nil p),
    download_storage_invariant_masked envMasked false [] "http://example.com/a.pdf" none
      (fun p hp => absurd hp (List.not_mem_nil p))⟩

/-- One positioned run of the pdfjs text content: items that carry a str
property (with the y coordinate transform[5] when a transform is present,
otherwise 0), and other items, which the extraction loop skips. -/
inductive RunItem where
  | text (s : String) (y : Option Int)
  | other
deriving DecidableEq

/-- A parsed PDF document: the text runs of each page, first page first; the
page count reported by pdfjs is the length of this list. -/
structure PDFDoc where
  pages : List (List RunItem)
deriving DecidableEq

/-- The pdfjs getDocument call as an oracle: parsing the raw bytes either
yields a document or throws. -/
structure PdfEnv where
  parse : List Nat → Except String PDFDoc

/-- The run-joining loop of readPDFText: walk the items of one page, skip
items without a str, and push a newline whenever the y coordinate moved by
more than 5 since the previous run. -/
def buildPageText (lastY : Option Int) : List RunItem → List String
  | [] => []
  | RunItem.other :: rest => buildPageText lastY rest
  | RunItem.text s t :: rest =>
    let y := t.getD 0
    match lastY with
    | some ly =>
      if 5 < (y - ly).natAbs then "\n" :: s :: buildPageText (some y) rest
      else s :: buildPageText (some y) rest
    | none => s :: buildPageText (some y) rest

/-- One page of readPDFText output: the page banner followed by the runs of
the page joined by single spaces. -/
def renderPage (doc : PDFDoc) (pageNum : Nat) : String :=
  "--- Page " ++ toString pageNum ++ " ---\n" ++
    String.intercalate " " (buildPageText none (doc.pages.getD (pageNum - 1) []))

/-- The JS defaulting pattern startPage or-else 1 and endPage or-else
totalPages: undefined and 0 are both falsy and fall to the default. -/
def jsOrDefault (o : Option Nat) (d : Nat) : Nat :=
  match o with
  | some n => if n = 0 then d else n
  | none => d

/-- PDFUtils.readPDFText: existence check, parse, then one page per loop
iteration from the start page up to the minimum of the end page and the
total page count, pages joined by blank lines; every failure is rethrown
with the standard wrapper. -/
def readPDFText (pe : PdfEnv) (fs : FS) (filepath : String)
    (startPage endPage : Option Nat) : Except String String :=
  match fsLookup filepath fs with
  | none => Except.error ("Failed to read PDF: PDF file not found: " ++ filepath)
  | some data =>
    match pe.parse data with
    | Except.error m => Except.error ("Failed to read PDF: " ++ m)
    | Except.ok doc =>
      let totalPages := doc.pages.length
      let start := jsOrDefault startPage 1
      let stop := jsOrDefault endPage totalPages
      let nums := List.range' start (min stop totalPages + 1 - start)
      Except.ok (String.intercalate "\n\n" (nums.map (renderPage doc)))

/-- The page loop of readPDFTextChunked as the list of startPage, endPage
pairs it visits: from page 1 in steps of chunkSize while startPage remains
at most totalPages, each range ending at the minimum of startPage plus
chunkSize minus 1 and totalPages.  The loop advances by at least one page
per iteration when chunkSize is at least 1, so totalPages units of fuel
always suffice; the source loop would not terminate at chunkSize 0, a value
no caller passes (the handler loop keeps its chunk size at least 1). -/
def chunkRangesFuel (tp cs : Nat) : Nat → Nat → List (Nat × Nat)
  | 0, _ => []
  | f + 1, s =>
    if s ≤ tp then (s, min (s + cs - 1) tp) :: chunkRangesFuel tp cs f (s + cs) else []

/-- The chunk ranges produced by readPDFTextChunked for a document of tp
pages at chunk size cs. -/
def chunkRanges (tp cs : Nat) : List (Nat × Nat) := chunkRangesFuel tp cs tp 1

/-- The body of the page loop of readPDFTextChunked: extract the text of
each visited range through readPDFText, collecting the chunks in order and
propagating the first failure. -/
def collectChunksFuel (pe : PdfEnv) (fs : FS) (filepath : String) (tp cs : Nat) :
    Nat → Nat → Except String (List String)
  | 0, _ => Except.ok []
  | f + 1, s =>
    if s ≤ tp then
      match readPDFText pe fs filepath (some s) (some (min (s + cs - 1) tp)) with
      | Except.error m => Except.error m
      | Except.ok t =>
        match collectChunksFuel pe fs filepath tp cs f (s + cs) with
        | Except.error m => Except.error m
        | Except.ok ts => Except.ok (t :: ts)
    else Except.ok []

/-- PDFUtils.readPDFTextChunked: existence check, parse, reject a zero page
count, then the chunk loop; every failure is rethrown with the chunked
wrapper. -/
def readPDFTextChunked (pe : PdfEnv) (fs : FS) (filepath : String) (cs : Nat) :
    Except String (List String × Nat) :=
  match fsLookup filepath fs with
  | none => Except.error ("Failed to read PDF in chunks: PDF file not found: " ++ filepath)
  | some data =>
    match pe.parse data with
    | Except.error m => Except.error ("Failed to read PDF in chunks: " ++ m)
    | Except.ok doc =>
      let tp := doc.pages.length
      if tp = 0 then
        Except.error "Failed to read PDF in chunks: Could not determine PDF page count"
      else
        match collectChunksFuel pe fs filepath tp cs tp 1 with
        | Except.error m => Except.error ("Failed to read PDF in chunks: " ++ m)
        | Except.ok chunks => Except.ok (chunks, tp)

theorem chunkRangesFuel_cons (tp cs f s : Nat) (hs : s ≤ tp) :
    chunkRangesFuel tp cs (f + 1) s =
      (s, min (s + cs - 1) tp) :: chunkRangesFuel tp cs f (s + cs) := by
  simp only [chunkRangesFuel]
  rw [if_pos hs]

theorem chunkRangesFuel_stop (tp cs f s : Nat) (hs : ¬ s ≤ tp) :
    chunkRangesFuel tp cs (f + 1) s = [] := by
  simp only [chunkRangesFuel]
  rw [if_neg hs]

theorem chunkRangesFuel_fst_le (tp cs : Nat) :
    ∀ (f s : Nat) (r : Nat × Nat), r ∈ chunkRangesFuel tp cs f s → r.1 ≤ tp := by
  intro f
  induction f with
  | zero => intro s r hr; simp [chunkRangesFuel] at hr
  | succ f ih =>
    intro s r hr
    by_cases hs : s ≤ tp
    · rw [chunkRangesFuel_cons tp cs f s hs] at hr
      rcases List.mem_cons.mp hr with h1 | h1
      · rw [h1]; exact hs
      · exact ih (s + cs) r h1
    · rw [chunkRangesFuel_stop tp cs f s hs] at hr
      simp at hr

theorem chunkRangesFuel_getq (tp cs : Nat) (hcs : 1 ≤ cs) :
    ∀ (f s i : Nat), tp + 1 - s ≤ f → i < (chunkRangesFuel tp cs f s).length →
      (chunkRangesFuel tp cs f s).get? i =
        some (s + cs * i, min (s + cs * i + cs - 1) tp) := by
  intro f
  induction f with
  | zero => intro s i hf hi; simp [chunkRangesFuel] at hi
  | succ f ih =>
    intro s i hf hi
    by_cases hs : s ≤ tp
    · rw [chunkRangesFuel_cons tp cs f s hs] at hi ⊢
      cases i with
      | zero => simp
      | succ i =>
        simp only [List.length_cons, Nat.add_lt_add_iff_right] at hi
        rw [List.get?_cons_succ]
        rw [ih (s + cs) i (by omega) hi]
        have e1 : s + cs + cs * i = s + cs * (i + 1) := by
          rw [Nat.mul_succ]; omega
        rw [e1]
    · rw [chunkRangesFuel_stop tp cs f s hs] at hi
      simp at hi

theorem chunkRangesFuel_bind (tp cs : Nat) (hcs : 1 ≤ cs) :
    ∀ (f s : Nat), 1 ≤ s → tp + 1 - s ≤ f →
      (chunkRangesFuel tp cs f s).flatMap (fun r => List.range' r.1 (r.2 + 1 - r.1)) =
        List.range' s (tp + 1 - s) := by
  intro f
  induction f with
  | zero =>
    intro s h1 hf
    have h0 : tp + 1 - s = 0 := by omega
    rw [h0]
    rfl
  | succ f ih =>
    intro s h1 hf
    by_cases hs : s ≤ tp
    · rw [chunkRangesFuel_cons tp cs f s hs]
      rw [List.flatMap_cons]
      rw [ih (s + cs) (by omega) (by omega)]
      dsimp only
      by_cases hcase : s + cs - 1 ≤ tp
      · have hmin : min (s + cs - 1) tp = s + cs - 1 := min_eq_left hcase
        rw [hmin]
        have hc1 : s + cs - 1 + 1 - s = cs := by omega
        rw [hc1]
        have happ := List.range'_append s cs (tp + 1 - (s + cs)) 1
        simp only [Nat.one_mul] at happ
        rw [happ]
        congr 1
        omega
      · have hmin : min (s + cs - 1) tp = tp := min_eq_right (by omega)
        rw [hmin]
        have h2 : tp + 1 - (s + cs) = 0 := by omega
        rw [h2]
        simp
    · rw [chunkRangesFuel_stop tp cs f s hs]
      have h0 : tp + 1 - s = 0 := by omega
      rw [h0]
      rfl

theorem chunkRanges_getq (tp cs : Nat) (hcs : 1 ≤ cs) (i : Nat)
    (hi : i < (chunkRanges tp cs).length) :
    (chunkRanges tp cs).get? i = some (1 + cs * i, min (1 + cs * i + cs - 1) tp) :=
  chunkRangesFuel_getq tp cs hcs tp 1 i (by omega) hi

/-- Claim C6: for a document with at least one page and a chunk size of at
least 1, the chunk ranges of the chunked extraction are exactly the ranges
the handler reports: chunk i covers pages i times chunkSize plus 1 up to the
minimum of (i plus 1) times chunkSize and totalPages; concatenating the page
ranges of all chunks in order gives exactly the pages 1 to totalPages with
no gap and no overlap; and every chunk that is not the last spans exactly
chunkSize pages. -/
theorem chunk_partition_exact :
    ∀ tp cs : Nat, 1 ≤ tp → 1 ≤ cs →
      (∀ i, i < (chunkRanges tp cs).length →
        (chunkRanges tp cs).get? i = some (i * cs + 1, min ((i + 1) * cs) tp)) ∧
      (chunkRanges tp cs).flatMap (fun r => List.range' r.1 (r.2 + 1 - r.1)) =
        List.range' 1 tp ∧
      (∀ i r r2, (chunkRanges tp cs).get? i = some r →
        (chunkRanges tp cs).get? (i + 1) = some r2 → r.2 + 1 - r.1 = cs) := by
  intro tp cs htp hcs
  refine ⟨?_, ?_, ?_⟩
  · intro i hi
    rw [chunkRanges_getq tp cs hcs i hi]
    have e1 : 1 + cs * i = i * cs + 1 := by rw [Nat.mul_comm]; omega
    have e2 : 1 + cs * i + cs - 1 = (i + 1) * cs := by
      rw [Nat.succ_mul, Nat.mul_comm i cs]; omega
    rw [e2, e1]
  · have hb := chunkRangesFuel_bind tp cs hcs tp 1 (by omega) (by omega)
    have h1 : tp + 1 - 1 = tp := by omega
    rw [h1] at hb
    exact hb
  · intro i r r2 h1 h2
    obtain ⟨hi, -⟩ := List.get?_eq_some.mp h1
    obtain ⟨hi2, -⟩ := List.get?_eq_some.mp h2
    rw [chunkRanges_getq tp cs hcs i hi] at h1
    rw [chunkRanges_getq tp cs hcs (i + 1) hi2] at h2
    have hr : r = (1 + cs * i, min (1 + cs * i + cs - 1) tp) := (Option.some.inj h1).symm
    have hmem : (1 + cs * (i + 1), min (1 + cs * (i + 1) + cs - 1) tp) ∈ chunkRanges tp cs :=
      List.get?_mem (chunkRanges_getq tp cs hcs (i + 1) hi2)
    have hle := chunkRangesFuel_fst_le tp cs tp 1 _ hmem
    simp only at hle
    rw [Nat.mul_succ] at hle
    rw [hr]
    simp only
    have hmin : min (1 + cs * i + cs - 1) tp = 1 + cs * i + cs - 1 :=
      min_eq_left (by omega)
    rw [hmin]
    omega

/-- Claim C6 witness: the partition properties evaluated for a five page
document at chunk size 2. -/
theorem chunk_partition_exact_witness :
    1 ≤ 5 ∧ 1 ≤ 2 ∧
      ((∀ i, i < (chunkRanges 5 2).length →
          (chunkRanges 5 2).get? i = some (i * 2 + 1, min ((i + 1) * 2) 5)) ∧
        (chunkRanges 5 2).flatMap (fun r => List.range' r.1 (r.2 + 1 - r.1)) =
          List.range' 1 5 ∧
        (∀ i r r2, (chunkRanges 5 2).get? i = some r →
          (chunkRanges 5 2).get? (i + 1) = some r2 → r.2 + 1 - r.1 = 2)) :=
  ⟨by decide, by decide, chunk_partition_exact 5 2 (by decide) (by decide)⟩

/-- Claim C8: on an existing, parseable PDF, a call of readPDFText with an
inverted page range (startPage greater than endPage, endPage at least 1)
deterministically returns the empty string with no error: the page loop runs
from startPage to the minimum of endPage and totalPages, which is below
startPage, so no page is visited and the join of no pages is empty. -/
theorem readPDFText_inverted_range_empty :
    ∀ (pe : PdfEnv) (fs : FS) (path : String) (sp ep : Nat) (data : List Nat) (doc : PDFDoc),
      fsLookup path fs = some data →
      pe.parse data = Except.ok doc →
      1 ≤ ep → ep < sp →
      readPDFText pe fs path (some sp) (some ep) = Except.ok "" := by
  intro pe fs path sp ep data doc hl hp hep hlt
  unfold readPDFText
  rw [hl]
  dsimp only
  rw [hp]
  dsimp only
  have hsp : ¬ sp = 0 := by omega
  have hep0 : ¬ ep = 0 := by omega
  simp only [jsOrDefault, if_neg hsp, if_neg hep0]
  have h0 : min ep doc.pages.length + 1 - sp = 0 := by omega
  rw [h0]
  rfl

/-- A concrete parse oracle returning a fixed five page document with no
text runs, used to evaluate the reading model on closed inputs. -/
def pdfEnvFive : PdfEnv := ⟨fun _ => Except.ok ⟨[[], [], [], [], []]⟩⟩

/-- Claim C8 witness: the inverted range startPage 5, endPage 3 on a stored
five page document returns the empty string. -/
theorem readPDFText_inverted_range_empty_witness :
    fsLookup "f.pdf" [("f.pdf", [37, 80, 68, 70])] = some [37, 80, 68, 70] ∧
    pdfEnvFive.parse [37, 80, 68, 70] = Except.ok ⟨[[], [], [], [], []]⟩ ∧
    1 ≤ 3 ∧ 3 < 5 ∧
    readPDFText pdfEnvFive [("f.pdf", [37, 80, 68, 70])] "f.pdf" (some 5) (some 3) =
      Except.ok "" :=
  ⟨rfl, rfl, by omega, by omega,
    readPDFText_inverted_range_empty pdfEnvFive [("f.pdf", [37, 80, 68, 70])] "f.pdf" 5 3
      [37, 80, 68, 70] ⟨[[], [], [], [], []]⟩ rfl rfl (by omega) (by omega)⟩

/-- The currentChunkSize update of the chunked read_pdf_text branch:
Math.max of 1 and the floor of currentChunkSize over 2. -/
def shrinkChunkSize (c : Nat) : Nat := max 1 (c / 2)

/-- The two ways the chunked branch of read_pdf_text can produce a response:
inside the shrink loop with a chunk set that fits the budget, or through the
first-page fallback after the loop exits. -/
inductive ChunkedReturn where
  | fits (chunkSize : Nat) (response : String)
  | firstPageFallback
deriving DecidableEq

/-- The shrink-and-retry loop of the chunked read_pdf_text branch, unrolled
for a given number of iterations.  attempt c stands for serialising the
response built from readPDFTextChunked at chunk size c (an error means that
call threw); a serialisation of length L has estimated token count L over 4,
and that estimate is at most 15000 in exact JS arithmetic iff L is at most
60000.  The loop runs while the chunk size is positive; leaving the loop
produces the first-page fallback.  The result is none when the given number
of iterations is not enough for the loop to produce anything. -/
def chunkedFitLoop (attempt : Nat → Except String String) : Nat → Nat → Option ChunkedReturn
  | 0, _ => none
  | f + 1, c =>
    if 0 < c then
      match attempt c with
      | Except.ok resp =>
        if resp.length ≤ 60000 then some (ChunkedReturn.fits c resp)
        else chunkedFitLoop attempt f (shrinkChunkSize c)
      | Except.error _ => chunkedFitLoop attempt f (shrinkChunkSize c)
    else some ChunkedReturn.firstPageFallback

theorem shrinkChunkSize_pos (c : Nat) : 0 < shrinkChunkSize c :=
  Nat.lt_of_lt_of_le Nat.zero_lt_one (le_max_left 1 (c / 2))

/-- Claim C1: the shrink-and-retry loop never terminates when every attempt
stays over the budget (or keeps throwing), because the update keeps the
chunk size at Math.max of 1 and half of it, which never drops below 1; the
loop guard only fails at chunk size 0, so the truncated first-page fallback
is unreachable from any positive starting size: no number of iterations
makes the loop produce a result. -/
theorem chunked_shrink_loop_never_exits :
    ∀ (attempt : Nat → Except String String),
      (∀ c s, attempt c = Except.ok s → 60000 < s.length) →
      ∀ (f c : Nat), 0 < c → chunkedFitLoop attempt f c = none := by
  intro attempt h f
  induction f with
  | zero => intro c hc; rfl
  | succ f ih =>
    intro c hc
    simp only [chunkedFitLoop]
    rw [if_pos hc]
    cases ha : attempt c with
    | ok s =>
      have hlen := h c s ha
      dsimp only
      rw [if_neg (by omega)]
      exact ih _ (shrinkChunkSize_pos c)
    | error m => exact ih _ (shrinkChunkSize_pos c)

/-- An attempt oracle on which every extraction throws, as for a chunked
read of a file that does not exist. -/
def attemptFail : Nat → Except String String :=
  fun _ => Except.error "Failed to read PDF in chunks: PDF file not found: missing.pdf"

/-- Claim C1 witness: with the always-throwing attempt oracle, starting from
the initial chunk size 2 of the handler, nine loop iterations produce no
result. -/
theorem chunked_shrink_loop_never_exits_witness :
    (∀ c s, attemptFail c = Except.ok s → 60000 < s.length) ∧
    0 < 2 ∧ chunkedFitLoop attemptFail 9 2 = none := by
  refine ⟨?_, by omega, ?_⟩
  · intro c s h
    exact absurd h (by simp [attemptFail])
  · exact chunked_shrink_loop_never_exits attemptFail
      (fun c s h => absurd h (by simp [attemptFail])) 9 2 (by omega)

/-- Per-invocation outcomes of the nine switch arms of the call-tool request
handler, for the arguments of the invocation under consideration.  Each arm
of the source either returns exactly one text content whose string is the
JSON serialisation it builds, or throws with a message; the field of each
tool holds that outcome, abstracting the client calls, PDF operations and
serialisation the arm performs. -/
structure ToolOps where
  searchArxivByCategory : Except String String
  searchArxiv : Except String String
  searchGoogleScholar : Except String String
  searchBothSources : Except String String
  downloadPdfTool : Except String String
  readPdfTextTool : Except String String
  downloadAndReadPdf : Except String String
  listDownloadedPdfsTool : Except String String
  cleanupDownloadsTool : Except String String

/-- The names of the nine tools the switch knows. -/
def toolNames : List String :=
  ["search_arxiv_by_category", "search_arxiv", "search_google_scholar",
   "search_both_sources", "download_pdf", "read_pdf_text", "download_and_read_pdf",
   "list_downloaded_pdfs", "cleanup_downloads"]

/-- The switch of the call-tool handler, before the surrounding try and
catch: a known name runs its arm, the default case throws Unknown tool. -/
def dispatchTool (ops : ToolOps) (name : String) : Except String String :=
  if name = "search_arxiv_by_category" then ops.searchArxivByCategory
  else if name = "search_arxiv" then ops.searchArxiv
  else if name = "search_google_scholar" then ops.searchGoogleScholar
  else if name = "search_both_sources" then ops.searchBothSources
  else if name = "download_pdf" then ops.downloadPdfTool
  else if name = "read_pdf_text" then ops.readPdfTextTool
  else if name = "download_and_read_pdf" then ops.downloadAndReadPdf
  else if name = "list_downloaded_pdfs" then ops.listDownloadedPdfsTool
  else if name = "cleanup_downloads" then ops.cleanupDownloadsTool
  else Except.error ("Unknown tool: " ++ name)

/-- The response shape of the call-tool handler: the text contents and the
error marker (a successful response carries no isError field, modelled as
false). -/
structure ToolResponse where
  content : List String
  isError : Bool
deriving DecidableEq

/-- The call-tool request handler: the try and catch around the switch turn
every thrown error into a single text content starting with Error and marked
with isError, and pass a successful arm result through unchanged. -/
def callToolHandler (ops : ToolOps) (name : String) : ToolResponse :=
  match dispatchTool ops name with
  | Except.ok t => ⟨[t], false⟩
  | Except.error m => ⟨["Error: " ++ m], true⟩

theorem dispatchTool_unknown (ops : ToolOps) (name : String) (hn : name ∉ toolNames) :
    dispatchTool ops name = Except.error ("Unknown tool: " ++ name) := by
  simp only [toolNames, List.mem_cons, List.not_mem_nil, or_false] at hn
  push_neg at hn
  obtain ⟨h1, h2, h3, h4, h5, h6, h7, h8, h9⟩ := hn
  simp [dispatchTool, h1, h2, h3, h4, h5, h6, h7, h8, h9]

/-- Claim C7: for every tool operation outcome and every tool name, known or
not, the handler returns a response with exactly one text content; a
non-error response carries exactly the successful arm payload, an error
response carries a message starting with Error, and an unknown name yields
the Unknown tool error marker; the handler itself is a total function, so no
exception passes the boundary. -/
theorem tool_call_boundary_total :
    ∀ (ops : ToolOps) (name : String),
      (callToolHandler ops name).content.length = 1 ∧
      ((callToolHandler ops name).isError = false →
        ∃ t, dispatchTool ops name = Except.ok t ∧ (callToolHandler ops name).content = [t]) ∧
      ((callToolHandler ops name).isError = true →
        ∃ m, (callToolHandler ops name).content = ["Error: " ++ m]) ∧
      (name ∉ toolNames →
        callToolHandler ops name = ⟨["Error: " ++ ("Unknown tool: " ++ name)], true⟩) := by
  intro ops name
  unfold callToolHandler
  cases h : dispatchTool ops name with
  | ok t =>
    refine ⟨rfl, fun _ => ⟨t, rfl, rfl⟩, fun hc => by simp at hc, fun hn => ?_⟩
    rw [dispatchTool_unknown ops name hn] at h
    exact absurd h (by simp)
  | error m =>
    refine ⟨rfl, fun hc => by simp at hc, fun _ => ⟨m, rfl⟩, fun hn => ?_⟩
    rw [dispatchTool_unknown ops name hn] at h
    rw [Except.error.inj h]

/-- Concrete tool operations for closed evaluation: every arm succeeds with
the payload ok. -/
def opsAllOk : ToolOps :=
  ⟨Except.ok "a1", Except.ok "a2", Except.ok "a3", Except.ok "a4", Except.ok "a5",
   Except.ok "a6", Except.ok "a7", Except.ok "a8", Except.ok "a9"⟩

/-- Claim C7 witness: the boundary properties evaluated at a concrete
operation table and the unknown tool name bogus_tool. -/
theorem tool_call_boundary_total_witness :
    (callToolHandler opsAllOk "bogus_tool").content.length = 1 ∧
    ((callToolHandler opsAllOk "bogus_tool").isError = false →
      ∃ t, dispatchTool opsAllOk "bogus_tool" = Except.ok t ∧
        (callToolHandler opsAllOk "bogus_tool").content = [t]) ∧
    ((callToolHandler opsAllOk "bogus_tool").isError = true →
      ∃ m, (callToolHandler opsAllOk "bogus_tool").content = ["Error: " ++ m]) ∧
    ("bogus_tool" ∉ toolNames →
      callToolHandler opsAllOk "bogus_tool" =
        ⟨["Error: " ++ ("Unknown tool: " ++ "bogus_tool")], true⟩) :=
  tool_call_boundary_total opsAllOk "bogus_tool"

/-- PDFUtils.listDownloadedPDFs: read the directory, keep the names ending
in .pdf, and join each with the downloads directory path.  The argument is
none when readdirSync throws; the catch then returns the empty list. -/
def listDownloadedPDFs (dir : String) (listing : Option FS) : List String :=
  match listing with
  | none => []
  | some fs =>
    ((fs.map (fun p => p.1)).filter (fun f => jsEndsWith f ".pdf")).map
      (fun f => dir ++ "/" ++ f)

/-- PDFUtils.cleanupDownloads: read the directory once and unlink every
listed name in order. -/
def cleanupDownloads (fs : FS) : FS :=
  (fs.map (fun p => p.1)).foldl (fun acc f => fsErase f acc) fs

theorem foldl_fsErase_nil :
    ∀ (names : List String) (l : FS), (∀ p ∈ l, p.1 ∈ names) →
      names.foldl (fun acc f => fsErase f acc) l = [] := by
  intro names
  induction names with
  | nil =>
    intro l h
    cases l with
    | nil => rfl
    | cons p rest => exact absurd (h p (by simp)) (by simp)
  | cons n ns ih =>
    intro l h
    simp only [List.foldl_cons]
    apply ih
    intro p hp
    have hpl := List.mem_filter.mp hp
    have hm := h p hpl.1
    have hne : ¬ p.1 = n := by
      intro he
      rw [he] at hpl
      simp at hpl
    rcases List.mem_cons.mp hm with h1 | h1
    · exact absurd h1 hne
    · exact h1

/-- Claim C9: cleanup empties the storage directory (every listed name is
unlinked), and a second call on the result is a no-op leaving zero files;
the model is a total function, so no call fails the caller, also on an
already empty directory. -/
theorem cleanupDownloads_idempotent :
    ∀ fs : FS, cleanupDownloads fs = [] ∧ cleanupDownloads (cleanupDownloads fs) = [] := by
  intro fs
  have h : cleanupDownloads fs = [] := by
    unfold cleanupDownloads
    exact foldl_fsErase_nil (fs.map (fun p => p.1)) fs
      (fun p hp => List.mem_map_of_mem (fun q => q.1) hp)
  exact ⟨h, by rw [h]; rfl⟩

theorem jsEndsWith_append (a b suf : String) (h : jsEndsWith b suf = true) :
    jsEndsWith (a ++ b) suf = true := by
  unfold jsEndsWith at h ⊢
  have h1 := List.isSuffixOf_iff_suffix.mp h
  apply List.isSuffixOf_iff_suffix.mpr
  rw [String.data_append]
  exact h1.trans (List.suffix_append a.data b.data)

theorem string_append_left_cancel {a b c : String} (h : a ++ b = a ++ c) : b = c := by
  have h2 := congrArg String.data h
  simp only [String.data_append] at h2
  exact String.ext (List.append_cancel_left h2)

/-- Claim C10: the listing never fails (an unreadable directory yields the
empty list), every returned path is the downloads directory path joined with
a directory entry ending in .pdf and itself ends in .pdf, and an entry not
ending in .pdf is never returned. -/
theorem listDownloadedPDFs_filtered :
    ∀ (dir : String) (listing : Option FS),
      listDownloadedPDFs dir none = [] ∧
      (∀ fs, listing = some fs →
        (∀ p ∈ listDownloadedPDFs dir listing,
          jsEndsWith p ".pdf" = true ∧
          ∃ f, f ∈ fs.map (fun q => q.1) ∧ jsEndsWith f ".pdf" = true ∧
            p = dir ++ "/" ++ f) ∧
        (∀ f, f ∈ fs.map (fun q => q.1) → jsEndsWith f ".pdf" = false →
          (dir ++ "/" ++ f) ∉ listDownloadedPDFs dir listing)) := by
  intro dir listing
  refine ⟨rfl, ?_⟩
  intro fs hfs
  subst hfs
  constructor
  · intro p hp
    have hp2 : p ∈ ((fs.map (fun q => q.1)).filter
        (fun f => jsEndsWith f ".pdf")).map (fun f => dir ++ "/" ++ f) := hp
    obtain ⟨f, hf2, hpe⟩ := List.mem_map.mp hp2
    obtain ⟨hf, hpdf⟩ := List.mem_filter.mp hf2
    refine ⟨?_, f, hf, hpdf, hpe.symm⟩
    rw [← hpe]
    have hassoc : dir ++ "/" ++ f = (dir ++ "/") ++ f := by rw [String.append_assoc]
    rw [hassoc]
    exact jsEndsWith_append (dir ++ "/") f ".pdf" hpdf
  · intro f hf hnot hmem
    have hm2 : (dir ++ "/" ++ f) ∈ ((fs.map (fun q => q.1)).filter
        (fun g => jsEndsWith g ".pdf")).map (fun g => dir ++ "/" ++ g) := hmem
    obtain ⟨g, hg2, hge⟩ := List.mem_map.mp hm2
    obtain ⟨hg, hgpdf⟩ := List.mem_filter.mp hg2
    have hfg : g = f := by
      have e1 : (dir ++ "/") ++ g = (dir ++ "/") ++ f := by
        rw [String.append_assoc] at hge
        rw [String.append_assoc]
        exact hge
      exact string_append_left_cancel e1
    rw [hfg] at hgpdf
    rw [hgpdf] at hnot
    exact Bool.noConfusion hnot

/-- Claim C10 witness: the listing evaluated on a directory holding one pdf
file and one text file. -/
theorem listDownloadedPDFs_filtered_witness :
    listDownloadedPDFs "/tmp/science_mcp_downloads" none = [] ∧
    (∀ fs, some [("a.pdf", ([] : List Nat)), ("b.txt", [])] = some fs →
      (∀ p ∈ listDownloadedPDFs "/tmp/science_mcp_downloads"
          (some [("a.pdf", ([] : List Nat)), ("b.txt", [])]),
        jsEndsWith p ".pdf" = true ∧
        ∃ f, f ∈ fs.map (fun q => q.1) ∧ jsEndsWith f ".pdf" = true ∧
          p = "/tmp/science_mcp_downloads" ++ "/" ++ f) ∧
      (∀ f, f ∈ fs.map (fun q => q.1) → jsEndsWith f ".pdf" = false →
        ("/tmp/science_mcp_downloads" ++ "/" ++ f) ∉
          listDownloadedPDFs "/tmp/science_mcp_downloads"
            (some [("a.pdf", ([] : List Nat)), ("b.txt", [])]))) :=
  listDownloadedPDFs_filtered "/tmp/science_mcp_downloads"
    (some [("a.pdf", ([] : List Nat)), ("b.txt", [])])
